import Mathlib

/-!
Verification development for the FC360 team-video application (`src/app.py`).

The Python source is shallowly embedded below.  Conventions:

* Python `int` values are `Int`; Python `//` (floor division) is `Int.fdiv`;
  Python `int(x)` applied to an exact decimal value (truncation toward zero)
  is `pyTrunc` on `ℚ`.  Numeric text in the XML log is modelled directly by
  the rational it denotes (`Option ℚ`; `none` means `float()` raises).
* SQL `NULL` / Python `None` in a column is `Option _`'s `none`.
  SQLAlchemy renders a comparison `col == v` with a Python `None` operand as
  `col IS NULL`, which is exactly `Option` equality, used as such below.
* Python truthiness of a string (`if s:`) is `s != ""`.
* The Mux provider and the HTTP transfer are external collaborators; their
  responses are passed in as explicit oracle values (`IngestOracle`,
  `MuxOracle`).  A `none` response models a raised exception, which the
  source catches (`except: ...`).
* `st.error` / `st.success` / `st.toast` calls are recorded as flags or
  message lists in the operation results; `session.commit()` is recorded in
  a `committed` flag.
-/

namespace FC360

/-! ### Event-log parser (`parse_xml`, app.py lines 94-112) -/

/-- One `<instance>` element of the time-coded XML log.
For `start`/`end`: outer `none` means the child element is absent
(`instance.find` returned `None`); `some none` means the element is present
but its text is not a parseable decimal (`float()` raises); `some (some q)`
means the text denotes the rational `q` (seconds).
For `code`/`label`: outer `none` means the element is absent; the inner
`Option String` is the element's `.text` (which is `None` for an empty
element). -/
structure Inst where
  start : Option (Option ℚ)
  «end» : Option (Option ℚ)
  code : Option (Option String)
  label : Option (Option String)
deriving DecidableEq, Repr

/-- An uploaded XML document: either unparseable as a document at all
(`ET.fromstring` raises), or a well-formed document given by its list of
`<instance>` elements in document order. -/
inductive XmlInput where
  | malformed
  | wellFormed (doc : List Inst)
deriving DecidableEq

/-- One parsed event record, the dictionary built at app.py lines 104-109.
`tag`/`player` are `Option String` because `code.text`/`label.text` can be
Python `None` even when the element exists. -/
structure EventDraft where
  tag : Option String
  player : Option String
  start_ms : Int
  end_ms : Int
deriving DecidableEq, Repr

/-- Python `int(float(t) * 1000)` for a time text denoting the exact
rational `q` (in seconds): truncation toward zero of `q * 1000`, computed
on the fraction's fields (`q * 1000 = (q.num * 1000) / q.den` and Python
`int()` truncates toward zero, which is `Int.tdiv`; the fraction need not
be reduced for truncating division). -/
def msOfSeconds (q : ℚ) : Int := (q.num * 1000).tdiv q.den

/-- The event dictionary built from a kept instance whose start and end
texts parse as the rationals `s` and `e` (seconds):
`tag = code.text if code is not None else 'Unknown'`,
`player = label.text if label is not None else ''`,
`start_ms = int(float(start.text) * 1000)`, and likewise `end_ms`. -/
def mkDraft (i : Inst) (s e : ℚ) : EventDraft :=
  { tag := match i.code with
      | none => some "Unknown"
      | some t => t
    player := match i.label with
      | none => some ""
      | some t => t
    start_ms := msOfSeconds s
    end_ms := msOfSeconds e }

/-- The loop body of `parse_xml` over the instance list.  An instance whose
`start` or `end` element is absent is skipped.  A kept instance whose
`start` or `end` text does not parse as a float raises, aborting the whole
loop (`none`). -/
def convInstances : List Inst → Option (List EventDraft)
  | [] => some []
  | i :: rest =>
    match i.start, i.«end» with
    | some s, some e =>
      match s, e with
      | some sq, some eq => (convInstances rest).map (fun l => mkDraft i sq eq :: l)
      | _, _ => none
    | _, _ => convInstances rest

/-- Embeds `parse_xml(xml_bytes)`: returns the event list together with a flag
recording whether `st.error("XML Error: ...")` was shown.  Any exception
(document-level parse failure, or a numeric conversion failure inside the
loop) is caught and yields `([], error shown)`. -/
def parse_xml : XmlInput → List EventDraft × Bool
  | .malformed => ([], true)
  | .wellFormed doc =>
    match convInstances doc with
    | none => ([], true)
    | some evs => (evs, false)

/-- The instances of a document that have both a `start` and an `end`
element with parseable numeric text, converted in document order.  This is
the reference description of `parse_xml`'s successful output. -/
def keptDrafts (doc : List Inst) : List EventDraft :=
  doc.filterMap fun i =>
    match i.start, i.«end» with
    | some (some sq), some (some eq) => some (mkDraft i sq eq)
    | _, _ => none

/-- Boolean well-formedness of one instance's time values: if both numeric
texts parse, they are non-negative and ordered. -/
def instOk (i : Inst) : Bool :=
  match i.start, i.«end» with
  | some (some sq), some (some eq) => decide (0 ≤ sq) && decide (sq ≤ eq)
  | _, _ => true

/-! ### Data model (app.py lines 28-64) -/

/-- Row of the `teams` table. -/
structure Team where
  id : Nat
  name : String
deriving DecidableEq, Repr

/-- Row of the `users` table.  `password` holds the stored digest. -/
structure User where
  id : Nat
  email : String
  password : String
  role : String
  team_id : Option Nat
deriving DecidableEq, Repr

/-- Row of the `matches` table. -/
structure Match where
  id : Nat
  opponent : String
  match_date : Option String
  team_id : Option Nat
  mux_asset_id : Option String
  mux_playback_id : Option String
  status : String
deriving DecidableEq, Repr

/-- Row of the `events` table. -/
structure Event where
  id : Nat
  match_id : Nat
  tag : Option String
  player : Option String
  start_ms : Int
  end_ms : Int
deriving DecidableEq, Repr

/-- The relational store, with the next value of each autoincrement
primary key. -/
structure DB where
  teams : List Team
  users : List User
  «matches» : List Match
  events : List Event
  next_team_id : Nat
  next_user_id : Nat
  next_match_id : Nat
  next_event_id : Nat
deriving DecidableEq, Repr

/-- The empty store created by `Base.metadata.create_all`. -/
def DB.dbInit : DB := ⟨[], [], [], [], 1, 1, 1, 1⟩

/-! ### Helpers and account operations (app.py lines 91-92, 161-179) -/

/-- Models the SHA-256 digest `hashlib.sha256(password).hexdigest()` as an
injective tagging function; the application only ever compares stored
digests for equality against freshly computed ones. -/
def hash_password (password : String) : String := "sha256:" ++ password

/-- The registration tab (app.py lines 171-178): creates
`User(email=ne, password=hash_password(np), role=nr)` and commits; the
unique-email constraint failure is caught (`st.error`), leaving the store
unchanged.  The role string comes directly from the caller's selectbox
input; no authentication is required.  Returns the store and a success
flag. -/
def register (db : DB) (ne np nr : String) : DB × Bool :=
  if db.users.any (fun u => u.email == ne) then (db, false)
  else
    ({ db with
        users := db.users ++ [⟨db.next_user_id, ne, hash_password np, nr, none⟩]
        next_user_id := db.next_user_id + 1 }, true)

/-- The login tab (app.py line 164): first user with the given email and
matching password digest. -/
def login (db : DB) (e p : String) : Option User :=
  db.users.find? fun u => u.email == e && u.password == hash_password p

/-- The role test used by every admin gate in the application
(`st.session_state.role == "admin"` at line 194, `u.role == "admin"` at
lines 248 and 261). -/
def is_admin (role : String) : Bool := role == "admin"

/-! ### Upload orchestration (app.py lines 198-223) -/

/-- External responses consumed by one run of the admin upload handler:
`upload` is `create_mux_upload()`'s result (`none` models the caught Mux
API exception returning `(None, None)`), `put_status` is the
`requests.put` status code. -/
structure IngestOracle where
  upload : Option (String × String)
  put_status : Nat
deriving DecidableEq

/-- Result of one run of the admin upload handler. -/
structure IngestResult where
  db : DB
  committed : Bool
  parse_error : Bool
  warned : Bool
deriving DecidableEq

/-- Embeds `db.query(Team).filter(Team.name == team_in).first()` followed by
implicit creation (app.py lines 213-215).  Returns the team id and the
store (with the new team flushed when created). -/
def get_or_create_team (db : DB) (team_in : String) : Nat × DB :=
  match db.teams.find? (fun t => t.name == team_in) with
  | some t => (t.id, db)
  | none =>
    (db.next_team_id,
     { db with
        teams := db.teams ++ [⟨db.next_team_id, team_in⟩]
        next_team_id := db.next_team_id + 1 })

/-- Bulk `db.add(Event(match_id=new_match.id, **ev))` over the parsed
drafts (app.py lines 219-220). -/
def addEvents (db : DB) (mid : Nat) (drafts : List EventDraft) : DB :=
  { db with
      events := db.events ++ drafts.enum.map (fun p =>
        ⟨db.next_event_id + p.1, mid, p.2.tag, p.2.player, p.2.start_ms, p.2.end_ms⟩)
      next_event_id := db.next_event_id + drafts.length }

/-- The `🚀 Start Admin Upload` handler (app.py lines 204-223).
Guard: `if team_in and v_file and x_file` (else a warning, nothing runs).
Then `create_mux_upload()`; on `if url:` and a 200 transfer response the
team is resolved or created, a `Match` with `status='processing'` and
`mux_asset_id=up_id` is added, `parse_xml` runs and its drafts are added
as `Event` rows, and everything is committed.  Note that the handler never
inspects whether `parse_xml` failed: a reported XML error still reaches
the commit with an empty event list. -/
def ingest (db : DB) (o : IngestOracle) (team_in opp : String)
    (has_video has_xml : Bool) (x : XmlInput) : IngestResult :=
  if team_in != "" && has_video && has_xml then
    match o.upload with
    | some (url, up_id) =>
      if url != "" then
        if o.put_status == 200 then
          let td := get_or_create_team db team_in
          let db1 := td.2
          let mid := db1.next_match_id
          let db2 := { db1 with
            «matches» := db1.«matches» ++
              [⟨mid, opp, none, some td.1, some up_id, none, "processing"⟩]
            next_match_id := mid + 1 }
          let pr := parse_xml x
          ⟨addEvents db2 mid pr.1, true, pr.2, false⟩
        else ⟨db, false, false, false⟩
      else ⟨db, false, false, false⟩
    | none => ⟨db, false, false, false⟩
  else ⟨db, false, false, true⟩

/-! ### Reconciliation (`update_processing_matches`, app.py lines 127-148) -/

/-- Body of an `uploads_api.get_direct_upload(...)` response (`up.data`). -/
structure UploadData where
  asset_id : Option String
deriving DecidableEq

/-- Body of an `assets_api.get_asset(...)` response (`asset.data`). -/
structure AssetData where
  status : String
  playback_ids : List String
deriving DecidableEq

/-- The Mux API as seen by one reconciliation pass: per-identifier
responses, `none` modelling a raised exception (caught by
`except: continue`). -/
structure MuxOracle where
  get_direct_upload : String → Option UploadData
  get_asset : String → Option AssetData

/-- Provider contract (spec section 6): playback identifiers are opaque
non-empty tokens. -/
def MuxOracle.Wf (o : MuxOracle) : Prop :=
  ∀ aid a, o.get_asset aid = some a → ∀ pid ∈ a.playback_ids, pid ≠ ""

/-- Provider contract (spec section 6): a `ready` asset carries at least
one playback identifier. -/
def MuxOracle.ReadyHasPlayback (o : MuxOracle) : Prop :=
  ∀ aid a, o.get_asset aid = some a → a.status = "ready" → a.playback_ids ≠ []

/-- The loop body of `update_processing_matches` for one pending match
(app.py lines 137-147).  Any exception leaves the (possibly already
mutated) row as is and continues.  Note the mutation order in the source:
`m.mux_asset_id` is assigned before `asset.data.playback_ids[0]` is read,
so a `ready` asset with an empty `playback_ids` list raises `IndexError`
after the first assignment, leaving a row whose `mux_asset_id` alone was
updated — and the final `session.commit()` persists it. -/
def reconcileMatch (o : MuxOracle) (m : Match) : Match :=
  match m.mux_asset_id with
  | none => m
  | some uid =>
    match o.get_direct_upload uid with
    | none => m
    | some up =>
      match up.asset_id with
      | none => m
      | some aid =>
        if aid != "" then
          match o.get_asset aid with
          | none => m
          | some asset =>
            if asset.status == "ready" then
              match asset.playback_ids with
              | [] => { m with mux_asset_id := some aid }
              | pid :: _ =>
                { m with
                    mux_asset_id := some aid
                    mux_playback_id := some pid
                    status := "ready" }
            else m
        else m

/-- The pending-selection predicate
`Match.status.in_(['processing', 'uploading'])`. -/
def pendingB (m : Match) : Bool :=
  m.status == "processing" || m.status == "uploading"

/-- What one reconciliation pass did: the resulting store, the
`st.success` messages shown (one per match transitioned to ready), whether
the `"Everything is synced!"` toast was shown, whether `session.commit()`
ran, and the Python return value of the function — which is `None` on
every path (`ret = none`). -/
structure ReconcileResult where
  db : DB
  messages : List String
  toast : Bool
  committed : Bool
  ret : Option Nat
deriving DecidableEq

/-- Embeds `update_processing_matches()` (app.py lines 127-148): select the
pending matches; if there are none, toast and return with no commit;
otherwise run the per-match loop and commit. -/
def update_processing_matches (db : DB) (o : MuxOracle) : ReconcileResult :=
  let processing := db.«matches».filter pendingB
  if processing.isEmpty then ⟨db, [], true, false, none⟩
  else
    ⟨{ db with «matches» := db.«matches».map fun m =>
         if pendingB m then reconcileMatch o m else m },
     processing.filterMap (fun m =>
       if (reconcileMatch o m).status == "ready" then
         some ("Linked: " ++ m.opponent ++ " is READY")
       else none),
     false, true, none⟩

/-! ### Team assignment (app.py lines 228-240) -/

/-- The `Apply` handler for one listed user:
`user.team_id = db.query(Team).filter(Team.name == sel).first().id` and
commit.  When no team has the selected name, `.first()` is `None` and the
attribute access raises before any mutation, so the store is unchanged. -/
def assignTeam (db : DB) (uid : Nat) (tname : String) : DB :=
  match db.teams.find? (fun t => t.name == tname) with
  | none => db
  | some t =>
    { db with users := db.users.map fun u =>
        if u.id == uid then { u with team_id := some t.id } else u }

/-! ### The admin sidebar gate (app.py lines 194-240) -/

/-- One of the three admin-only operations reachable from the sidebar. -/
inductive AdminAction where
  | upload (team_in opp : String) (has_video has_xml : Bool) (x : XmlInput)
  | sync
  | assign (uid : Nat) (tname : String)

/-- Outcome of an admin operation: the store afterwards and whether a
commit was issued. -/
structure AdminOutcome where
  db : DB
  committed : Bool
deriving DecidableEq

/-- The bodies of the three admin operations, exactly as they run when
their button is clicked.  None of them inspects the caller's role. -/
def perform_admin (a : AdminAction) (db : DB) (oi : IngestOracle)
    (om : MuxOracle) : AdminOutcome :=
  match a with
  | .upload team_in opp hv hx x =>
    let r := ingest db oi team_in opp hv hx x
    ⟨r.db, r.committed⟩
  | .sync =>
    let r := update_processing_matches db om
    ⟨r.db, r.committed⟩
  | .assign uid tname =>
    ⟨assignTeam db uid tname,
     (db.teams.find? (fun t => t.name == tname)).isSome⟩

/-- The sidebar: the admin controls are rendered — and hence the
operations invocable through the UI — only under
`if st.session_state.role == "admin":` (app.py line 194).  This is the
sole authorization check in the application. -/
def admin_sidebar (role : String) (a : AdminAction) (db : DB)
    (oi : IngestOracle) (om : MuxOracle) : AdminOutcome :=
  if is_admin role then perform_admin a db oi om else ⟨db, false⟩

/-! ### Timeline query service (app.py lines 245-277) -/

/-- Python f-string interpolation of an optional column value
(`None` renders as the string `"None"`). -/
def optStr : Option String → String
  | none => "None"
  | some s => s

/-- The derived playback URL (app.py lines 271-273):
`seek = ev.start_ms // 1000` (Python floor division) and
`url = f"https://stream.mux.com/{mt.mux_playback_id}/low.mp4#t={seek}"`. -/
def seek_url (m : Match) (e : Event) : String :=
  "https://stream.mux.com/" ++ optStr m.mux_playback_id ++
    "/low.mp4#t=" ++ toString (e.start_ms.fdiv 1000)

/-- Embeds `db.query(Event, Match).join(Match).filter(Event.tag == sel_tag)`,
then `if u.role != "admin": query = query.filter(Match.team_id ==
u.team_id)` (app.py lines 260-261).  SQL semantics: a `NULL` tag matches
no literal, and the team comparison is `IS NULL` when `u.team_id` is
Python `None` — both exactly `Option` equality. -/
def timeline_query (db : DB) (u : User) (sel_tag : String) :
    List (Event × Match) :=
  (db.events.flatMap fun e =>
      (db.«matches».filter fun m => m.id == e.match_id).map fun m => (e, m)).filter
    fun p => p.1.tag == some sel_tag &&
      (u.role == "admin" || p.2.team_id == u.team_id)

/-- One row of the rendered timeline (app.py lines 264-277): a ready
match's event renders with its playback URL; a pending match renders only
as the `"Match vs ... is still processing..."` placeholder. -/
inductive TimelineEntry where
  | playable (e : Event) (m : Match) (url : String)
  | placeholder (opponent : String)
deriving DecidableEq, Repr

/-- The rendering loop `for ev, mt in query.all():` with the
`if mt.status == 'ready':` branch. -/
def render_timeline (db : DB) (u : User) (sel_tag : String) :
    List TimelineEntry :=
  (timeline_query db u sel_tag).map fun p =>
    if p.2.status == "ready" then .playable p.1 p.2 (seek_url p.2 p.1)
    else .placeholder p.2.opponent

/-! ### Reachable stores -/

/-- One state-changing interaction of the application, as invocable
through the UI.  Reconciliation runs against a provider satisfying the
section-6 contract that playback identifiers are non-empty tokens. -/
inductive Step : DB → DB → Prop
  | doRegister (db : DB) (ne np nr : String) : Step db (register db ne np nr).1
  | doIngest (db : DB) (o : IngestOracle) (team_in opp : String)
      (hv hx : Bool) (x : XmlInput) :
      Step db (ingest db o team_in opp hv hx x).db
  | doReconcile (db : DB) (o : MuxOracle) (hwf : o.Wf) :
      Step db (update_processing_matches db o).db
  | doAssign (db : DB) (uid : Nat) (tname : String) :
      Step db (assignTeam db uid tname)

/-- Stores reachable from the freshly created schema. -/
inductive Reachable : DB → Prop
  | refl : Reachable DB.dbInit
  | tail {db db2 : DB} : Reachable db → Step db db2 → Reachable db2

/-! ### Derived notions used by the statements -/

/-- What the reconciliation loop does to one row of the match table: the
loop body runs exactly on the rows selected as pending. -/
def reconStep (o : MuxOracle) (m : Match) : Match :=
  if pendingB m then reconcileMatch o m else m

/-- Number of rows of the match table that a pass moved to `ready`
(comparing the table before and after, row by row). -/
def transitionsCount (db db2 : DB) : Nat :=
  ((db.«matches».zip db2.«matches»).filter fun p =>
    p.1.status != "ready" && p.2.status == "ready").length

/-- Position of a status along the forward lifecycle
`uploading/processing → ready`. -/
def statusRank (m : Match) : Nat := if m.status == "ready" then 1 else 0

/-- The stored playback identifier is present and non-empty. -/
def playbackNonEmpty (m : Match) : Bool :=
  match m.mux_playback_id with
  | none => false
  | some s => s != ""

/-- The state invariant of the match table: the playback identifier is
non-empty exactly on `ready` rows, and every match row references a
team. -/
def StateInv (db : DB) : Prop :=
  ∀ m ∈ db.«matches»,
    (playbackNonEmpty m = true ↔ m.status = "ready") ∧ m.team_id ≠ none

/-! ### Concrete fixtures (used by witnesses and counterexamples) -/

/-- Instance `code=Goal, start=10.0, end=15.0, label=Smith` of the spec's
end-to-end scenario 1. -/
def iGoal : Inst :=
  ⟨some (some 10), some (some 15), some (some "Goal"), some (some "Smith")⟩

/-- Instance `code=Foul, start=40.5, end=42.0`, no label, of the spec's
end-to-end scenario 1. -/
def iFoul : Inst :=
  ⟨some (some (mkRat 405 10)), some (some 42), some (some "Foul"), none⟩

/-- An instance with no `start` element. -/
def iNoStart : Inst := ⟨none, some (some 3), some (some "X"), none⟩

/-- An instance with negative times (start -5.0s, end -1.0s). -/
def iNeg : Inst := ⟨some (some (-5)), some (some (-1)), some (some "Goal"), none⟩

/-- An instance whose end (1.0s) precedes its start (2.0s). -/
def iBad : Inst := ⟨some (some 2), some (some 1), some (some "Foul"), none⟩

/-- An instance with neither a code element nor a label element. -/
def iNoCode : Inst := ⟨some (some 10), some (some 15), none, none⟩

/-- An instance with start 61.999s (millisecond value 61999). -/
def iSk : Inst := ⟨some (some (mkRat 61999 1000)), some (some 62), some (some "Goal"), none⟩

/-- A successful upload handshake: Mux returns an upload URL and upload id
`up1`, and the video transfer answers 200. -/
def oUp : IngestOracle := ⟨some ("https://mux.example/put", "up1"), 200⟩

/-- Mux resolves upload `up1` to asset `asset1`, which is ready with
playback id `pb1`. -/
def oGood : MuxOracle :=
  ⟨fun uid => if uid == "up1" then some ⟨some "asset1"⟩ else none,
   fun aid => if aid == "asset1" then some ⟨"ready", ["pb1"]⟩ else none⟩

/-- Mux resolves upload `up1` to asset `asset1`, which reports `ready`
with an empty playback-id list. -/
def oEmptyPb : MuxOracle :=
  ⟨fun uid => if uid == "up1" then some ⟨some "asset1"⟩ else none,
   fun aid => if aid == "asset1" then some ⟨"ready", []⟩ else none⟩

/-- A provider that answers every query with an exception. -/
def oNone : MuxOracle := ⟨fun _ => none, fun _ => none⟩

/-- Store after ingesting scenario 1 (team NYCFC vs Inter Miami, the
Goal/Foul log) into the fresh schema. -/
def dbA : DB :=
  (ingest DB.dbInit oUp "NYCFC" "Inter Miami" true true
    (.wellFormed [iGoal, iFoul])).db

/-- Store after the reconciliation pass that links `dbA`'s match. -/
def dbB : DB := (update_processing_matches dbA oGood).db

/-- Store after ingesting a log whose only instance has negative times. -/
def dbNegA : DB :=
  (ingest DB.dbInit oUp "NYCFC" "Western" true true (.wellFormed [iNeg])).db

/-- Store `dbNegA` after its match is reconciled to ready. -/
def dbNeg : DB := (update_processing_matches dbNegA oGood).db

/-- Store after ingesting a log whose only instance starts at 61.999s. -/
def dbSkA : DB :=
  (ingest DB.dbInit oUp "NYCFC" "Eastern" true true (.wellFormed [iSk])).db

/-- Store `dbSkA` after its match is reconciled to ready. -/
def dbSk : DB := (update_processing_matches dbSkA oGood).db

/-- An admin-role viewer. -/
def uAdmin : User := ⟨7, "admin@x.com", hash_password "a", "admin", none⟩

/-- A user-role viewer affiliated with team 1. -/
def uUser1 : User := ⟨8, "user@x.com", hash_password "u", "user", some 1⟩

/-- A user-role viewer with no team affiliation. -/
def uUser0 : User := ⟨9, "lone@x.com", hash_password "l", "user", none⟩

/-- The match row of `dbA` (status processing, upload id stored). -/
def mA : Match := ⟨1, "Inter Miami", none, some 1, some "up1", none, "processing"⟩

/-- The match row after the partial write of a pass against `oEmptyPb`:
only `mux_asset_id` changed. -/
def mAPartial : Match := ⟨1, "Inter Miami", none, some 1, some "asset1", none, "processing"⟩

/-- The event row of `dbNeg`. -/
def evNeg : Event := ⟨1, 1, some "Goal", some "", -5000, -1000⟩

/-- The match row of `dbNeg`. -/
def mNeg : Match := ⟨1, "Western", none, some 1, some "asset1", some "pb1", "ready"⟩

/-- The event row of `dbSk`. -/
def evSk : Event := ⟨1, 1, some "Goal", some "", 61999, 62000⟩

/-- The match row of `dbSk`. -/
def mSk : Match := ⟨1, "Eastern", none, some 1, some "asset1", some "pb1", "ready"⟩

/-- The playback URL rendered for `evSk`. -/
def urlSk : String := "https://stream.mux.com/pb1/low.mp4#t=61"

/-! ### Parser lemmas -/

theorem msOfSeconds_eq_floor {q : ℚ} (h : 0 ≤ q) :
    msOfSeconds q = ⌊(q * 1000 : ℚ)⌋ := by
  have hq : ((q.num * 1000 : ℤ) : ℚ) / ((q.den : ℕ) : ℚ) = q * 1000 := by
    push_cast
    conv_rhs => rw [← Rat.num_div_den q]
    rw [div_mul_eq_mul_div]
  rw [msOfSeconds, Int.tdiv_eq_ediv (by positivity) (by positivity),
    ← Rat.floor_intCast_div_natCast, hq]

theorem msOfSeconds_nonneg {q : ℚ} (h : 0 ≤ q) : 0 ≤ msOfSeconds q := by
  rw [msOfSeconds_eq_floor h]
  exact Int.floor_nonneg.mpr (by positivity)

theorem msOfSeconds_mono {q r : ℚ} (hq : 0 ≤ q) (hqr : q ≤ r) :
    msOfSeconds q ≤ msOfSeconds r := by
  rw [msOfSeconds_eq_floor hq, msOfSeconds_eq_floor (hq.trans hqr)]
  exact Int.floor_le_floor (by nlinarith)

theorem convInstances_eq_keptDrafts :
    ∀ {doc : List Inst} {evs : List EventDraft},
      convInstances doc = some evs → evs = keptDrafts doc := by
  intro doc
  induction doc with
  | nil =>
    intro evs h
    simp only [convInstances, Option.some.injEq] at h
    simp [keptDrafts, ← h]
  | cons i rest ih =>
    intro evs h
    rw [convInstances] at h
    rcases h1 : i.start with _ | s <;> rw [h1] at h
    · rw [keptDrafts, List.filterMap_cons]
      simp only [h1]
      exact ih h
    · rcases h2 : i.«end» with _ | e <;> rw [h2] at h
      · rw [keptDrafts, List.filterMap_cons]
        simp only [h1, h2]
        exact ih h
      · rcases h3 : s with _ | sq <;> rw [h3] at h
        · simp at h
        · rcases h4 : e with _ | eq <;> rw [h4] at h
          · simp at h
          · rw [Option.map_eq_some'] at h
            obtain ⟨l, hl, hevs⟩ := h
            rw [keptDrafts, List.filterMap_cons]
            simp only [h1, h2, h3, h4]
            rw [← hevs, ih hl]
            rfl

theorem convInstances_drop {i : Inst} (hi : i.start = none ∨ i.«end» = none) :
    ∀ (pre post : List Inst),
      convInstances (pre ++ i :: post) = convInstances (pre ++ post) := by
  intro pre
  induction pre with
  | nil =>
    intro post
    simp only [List.nil_append]
    rw [convInstances]
    rcases hi with hi | hi
    · rw [hi]
    · rcases h1 : i.start with _ | s
      · rfl
      · rw [hi]
  | cons a pre ih =>
    intro post
    simp only [List.cons_append]
    rw [convInstances]
    conv_rhs => rw [convInstances]
    rcases h1 : a.start with _ | s
    · exact ih post
    · rcases h2 : a.«end» with _ | e
      · exact ih post
      · rcases s with _ | sq
        · rfl
        · rcases e with _ | eq
          · rfl
          · rw [ih post]

/-! ### Reconciliation lemmas -/

theorem reconcileMatch_cases (o : MuxOracle) (m : Match) :
    reconcileMatch o m = m
    ∨ (∃ aid a, o.get_asset aid = some a ∧ a.status = "ready" ∧
        a.playback_ids = [] ∧
        reconcileMatch o m = { m with mux_asset_id := some aid })
    ∨ (∃ aid a pid rest, o.get_asset aid = some a ∧ a.status = "ready" ∧
        a.playback_ids = pid :: rest ∧
        reconcileMatch o m =
          { m with mux_asset_id := some aid, mux_playback_id := some pid,
                   status := "ready" }) := by
  rcases hma : m.mux_asset_id with _ | uid
  · left; simp [reconcileMatch, hma]
  rcases hup : o.get_direct_upload uid with _ | up
  · left; simp [reconcileMatch, hma, hup]
  rcases hai : up.asset_id with _ | aid
  · left; simp [reconcileMatch, hma, hup, hai]
  by_cases hne : (aid != "") = true
  case neg => left; simp [reconcileMatch, hma, hup, hai, hne]
  rcases hga : o.get_asset aid with _ | asset
  · left; simp [reconcileMatch, hma, hup, hai, hne, hga]
  by_cases hst : (asset.status == "ready") = true
  case neg => left; simp [reconcileMatch, hma, hup, hai, hne, hga, hst]
  rcases hpb : asset.playback_ids with _ | ⟨pid, rest⟩
  · right; left
    exact ⟨aid, asset, hga, by simpa using hst, hpb,
      by simp [reconcileMatch, hma, hup, hai, hne, hga, hst, hpb]⟩
  · right; right
    exact ⟨aid, asset, pid, rest, hga, by simpa using hst, hpb,
      by simp [reconcileMatch, hma, hup, hai, hne, hga, hst, hpb]⟩

theorem pendingB_status {m : Match} (h : pendingB m = true) :
    m.status ≠ "ready" := by
  intro hr
  rw [pendingB, hr] at h
  simp at h

theorem update_db_eq (db : DB) (o : MuxOracle) :
    (update_processing_matches db o).db =
      { db with «matches» := db.«matches».map (reconStep o) } := by
  rw [update_processing_matches]
  split
  next hemp =>
    have hnil : db.«matches».filter pendingB = [] := by
      simpa [List.isEmpty_iff] using hemp
    have hid : ∀ m ∈ db.«matches», reconStep o m = id m := by
      intro m hm
      have : ¬ pendingB m = true := by
        simpa using (List.filter_eq_nil_iff.mp hnil) m hm
      simp [reconStep, this]
    rw [List.map_congr_left hid, List.map_id]
  next => rfl

theorem update_ret (db : DB) (o : MuxOracle) :
    (update_processing_matches db o).ret = none := by
  rw [update_processing_matches]
  split <;> rfl

theorem zip_filter_len (o : MuxOracle) :
    ∀ l : List Match,
      ((l.filter pendingB).filterMap (fun m =>
        if (reconcileMatch o m).status == "ready" then
          some ("Linked: " ++ m.opponent ++ " is READY")
        else none)).length
      = ((l.zip (l.map (reconStep o))).filter fun p =>
          p.1.status != "ready" && p.2.status == "ready").length := by
  intro l
  induction l with
  | nil => rfl
  | cons m l ih =>
    rw [List.map_cons, List.zip_cons_cons]
    by_cases hp : pendingB m = true
    · have hs1 : (m.status != "ready") = true := by
        simpa using pendingB_status hp
      have hstep : reconStep o m = reconcileMatch o m := by
        rw [reconStep, if_pos hp]
      rw [List.filter_cons_of_pos hp, List.filterMap_cons, List.filter_cons]
      by_cases hr : ((reconcileMatch o m).status == "ready") = true
      · simp [hstep, hs1, hr]
        simpa using ih
      · simp [hstep, hs1, hr]
        simpa using ih
    · have hstep : reconStep o m = m := by
        rw [reconStep, if_neg hp]
      rw [List.filter_cons_of_neg hp, List.filter_cons]
      cases hb : (m.status == "ready") <;>
        (simp [hstep, hb, bne]
         simpa [bne] using ih)

theorem update_messages_len (db : DB) (o : MuxOracle) :
    (update_processing_matches db o).messages.length =
      transitionsCount db (update_processing_matches db o).db := by
  rw [update_db_eq, transitionsCount]
  show (update_processing_matches db o).messages.length =
    ((db.«matches».zip (db.«matches».map (reconStep o))).filter fun p =>
      p.1.status != "ready" && p.2.status == "ready").length
  rw [update_processing_matches]
  split
  next hemp =>
    have hnil : db.«matches».filter pendingB = [] := by
      simpa [List.isEmpty_iff] using hemp
    have hz := zip_filter_len o db.«matches»
    rw [hnil] at hz
    simpa using hz
  next => exact zip_filter_len o db.«matches»

/-! ### Per-operation match-table lemmas and the state invariant -/

theorem register_matches (db : DB) (ne np nr : String) :
    (register db ne np nr).1.«matches» = db.«matches» := by
  rw [register]
  split <;> rfl

theorem assign_matches (db : DB) (uid : Nat) (tname : String) :
    (assignTeam db uid tname).«matches» = db.«matches» := by
  rw [assignTeam]
  split <;> rfl

theorem gocTeam_matches (db : DB) (ti : String) :
    (get_or_create_team db ti).2.«matches» = db.«matches» := by
  rw [get_or_create_team]
  split <;> rfl

theorem ingest_matches (db : DB) (o : IngestOracle) (ti opp : String)
    (hv hx : Bool) (x : XmlInput) :
    (ingest db o ti opp hv hx x).db.«matches» = db.«matches»
    ∨ ∃ m : Match, m.mux_playback_id = none ∧ m.status = "processing" ∧
        m.team_id ≠ none ∧
        (ingest db o ti opp hv hx x).db.«matches» = db.«matches» ++ [m] := by
  by_cases hg : (ti != "" && hv && hx) = true
  case neg => left; simp [ingest, hg]
  rcases hupl : o.upload with _ | ⟨url, up_id⟩
  · left; simp [ingest, hg, hupl]
  by_cases hu : (url != "") = true
  case neg => left; simp [ingest, hg, hupl, hu]
  by_cases hp : (o.put_status == 200) = true
  case neg => left; simp [ingest, hg, hupl, hu, hp]
  right
  refine ⟨⟨(get_or_create_team db ti).2.next_match_id, opp, none,
    some (get_or_create_team db ti).1, some up_id, none, "processing"⟩,
    rfl, rfl, by simp, ?_⟩
  simp only [ingest, hg, hupl, hu, hp, if_true, addEvents]
  simp [gocTeam_matches]

theorem stateInv_step {db db2 : DB} (h : StateInv db) (hs : Step db db2) :
    StateInv db2 := by
  cases hs with
  | doRegister ne np nr =>
    intro m hm
    rw [register_matches] at hm
    exact h m hm
  | doIngest o ti opp hv hx x =>
    rcases ingest_matches db o ti opp hv hx x with heq | ⟨m0, h1, h2, h3, heq⟩
    · intro m hm
      rw [heq] at hm
      exact h m hm
    · intro m hm
      rw [heq, List.mem_append] at hm
      rcases hm with hm | hm
      · exact h m hm
      · have : m = m0 := by simpa using hm
        subst this
        refine ⟨?_, h3⟩
        rw [playbackNonEmpty, h1, h2]
        simp
  | doReconcile o hwf =>
    intro m hm
    rw [update_db_eq] at hm
    simp only [List.mem_map] at hm
    obtain ⟨m0, hm0, rfl⟩ := hm
    have h0 := h m0 hm0
    rw [reconStep]
    by_cases hp : pendingB m0 = true
    · rw [if_pos hp]
      rcases reconcileMatch_cases o m0 with hc | ⟨aid, a, hga, hst, hpb, hc⟩ |
        ⟨aid, a, pid, rest, hga, hst, hpb, hc⟩
      · rw [hc]; exact h0
      · rw [hc]
        exact ⟨h0.1, h0.2⟩
      · rw [hc]
        have hpid : pid ≠ "" := hwf aid a hga pid (by rw [hpb]; exact List.mem_cons_self pid rest)
        constructor
        · constructor
          · intro _; rfl
          · intro _
            rw [playbackNonEmpty]
            simpa using hpid
        · exact h0.2
    · rw [if_neg hp]; exact h0
  | doAssign uid tname =>
    intro m hm
    rw [assign_matches] at hm
    exact h m hm

theorem reachable_stateInv {db : DB} (h : Reachable db) : StateInv db := by
  induction h with
  | refl =>
    intro m hm
    simp [DB.dbInit] at hm
  | tail _ hs ih => exact stateInv_step ih hs

/-! ### Parse-result and query lemmas -/

theorem parse_wf_eq (doc : List Inst) :
    parse_xml (.wellFormed doc) = ([], true)
    ∨ parse_xml (.wellFormed doc) = (keptDrafts doc, false) := by
  rw [parse_xml]
  rcases hconv : convInstances doc with _ | evs
  · left; rfl
  · right
    show (evs, false) = (keptDrafts doc, false)
    rw [convInstances_eq_keptDrafts hconv]

theorem mem_timeline_query (db : DB) (u : User) (tag : String)
    (e : Event) (m : Match) :
    (e, m) ∈ timeline_query db u tag ↔
      e ∈ db.events ∧ m ∈ db.«matches» ∧ m.id = e.match_id ∧
      e.tag = some tag ∧ (u.role = "admin" ∨ m.team_id = u.team_id) := by
  constructor
  · intro h
    rw [timeline_query, List.mem_filter] at h
    obtain ⟨hmem, hcond⟩ := h
    rw [List.mem_flatMap] at hmem
    obtain ⟨e0, he0, hpair⟩ := hmem
    rw [List.mem_map] at hpair
    obtain ⟨m0, hm0f, heq⟩ := hpair
    rw [List.mem_filter] at hm0f
    obtain ⟨hm0, hid⟩ := hm0f
    injection heq with h1 h2
    subst h1
    subst h2
    simp only [Bool.and_eq_true, Bool.or_eq_true, beq_iff_eq] at hcond
    simp only [beq_iff_eq] at hid
    exact ⟨he0, hm0, hid, hcond.1, hcond.2⟩
  · rintro ⟨he, hm, hid, htag, hrole⟩
    rw [timeline_query, List.mem_filter]
    constructor
    · rw [List.mem_flatMap]
      refine ⟨e, he, ?_⟩
      rw [List.mem_map]
      refine ⟨m, ?_, rfl⟩
      rw [List.mem_filter]
      exact ⟨hm, by simp [hid]⟩
    · rcases hrole with h | h <;> simp [htag, h]

theorem mem_render_playable (db : DB) (u : User) (tag : String)
    (e : Event) (m : Match) (url : String) :
    TimelineEntry.playable e m url ∈ render_timeline db u tag ↔
      (e, m) ∈ timeline_query db u tag ∧ m.status = "ready" ∧
      url = seek_url m e := by
  rw [render_timeline, List.mem_map]
  constructor
  · rintro ⟨p, hp, heq⟩
    by_cases hst : (p.2.status == "ready") = true
    · rw [if_pos hst] at heq
      cases heq
      exact ⟨hp, by simpa using hst, rfl⟩
    · rw [if_neg hst] at heq
      exact TimelineEntry.noConfusion heq
  · rintro ⟨hq, hst, rfl⟩
    refine ⟨(e, m), hq, ?_⟩
    simp [hst]

/-! ### Contract facts about the fixture oracles, and fixture reachability -/

theorem oGood_wf : oGood.Wf := by
  intro aid a h pid hpid
  simp only [oGood] at h
  by_cases haid : (aid == "asset1") = true
  · rw [if_pos haid] at h
    injection h with h
    subst h
    have : pid = "pb1" := by simpa using hpid
    subst this
    decide
  · rw [if_neg haid] at h
    cases h

theorem oGood_rhp : oGood.ReadyHasPlayback := by
  intro aid a h _
  simp only [oGood] at h
  by_cases haid : (aid == "asset1") = true
  · rw [if_pos haid] at h
    injection h with h
    subst h
    decide
  · rw [if_neg haid] at h
    cases h

theorem oEmptyPb_wf : oEmptyPb.Wf := by
  intro aid a h pid hpid
  simp only [oEmptyPb] at h
  by_cases haid : (aid == "asset1") = true
  · rw [if_pos haid] at h
    injection h with h
    subst h
    simp at hpid
  · rw [if_neg haid] at h
    cases h

theorem reach_dbA : Reachable dbA :=
  Reachable.tail Reachable.refl
    (Step.doIngest DB.dbInit oUp "NYCFC" "Inter Miami" true true
      (.wellFormed [iGoal, iFoul]))

theorem reach_dbB : Reachable dbB :=
  Reachable.tail reach_dbA (Step.doReconcile dbA oGood oGood_wf)

theorem reach_dbNegA : Reachable dbNegA :=
  Reachable.tail Reachable.refl
    (Step.doIngest DB.dbInit oUp "NYCFC" "Western" true true
      (.wellFormed [iNeg]))

theorem reach_dbNeg : Reachable dbNeg :=
  Reachable.tail reach_dbNegA (Step.doReconcile dbNegA oGood oGood_wf)

/-! ### Claim C3 -/

/-- C3 (code bug): on XML bytes unparseable as a document, the parse
failure is reported as a single failure, but the Upload Orchestrator does
not abort: it still commits a Match row (with zero events) to the
store. -/
theorem C3_malformed_xml_commits_match :
    (ingest DB.dbInit oUp "NYCFC" "Inter Miami" true true
        XmlInput.malformed).parse_error = true
    ∧ (ingest DB.dbInit oUp "NYCFC" "Inter Miami" true true
        XmlInput.malformed).committed = true
    ∧ (ingest DB.dbInit oUp "NYCFC" "Inter Miami" true true
        XmlInput.malformed).db.«matches».length = 1
    ∧ (ingest DB.dbInit oUp "NYCFC" "Inter Miami" true true
        XmlInput.malformed).db.events = [] := by
  decide

/-! ### Claim C7 -/

/-- C7 (amended): for every log whose instances carry non-negative,
ordered time values, every event produced by the parser satisfies
`0 ≤ start_ms` and `start_ms ≤ end_ms`; and every produced event comes
from an instance having both a start and an end element with parsed
times — instances missing one are excluded, never defaulted to zero. -/
theorem C7_time_bounds (doc : List Inst) (h : doc.all instOk = true) :
    ∀ ev ∈ (parse_xml (.wellFormed doc)).1,
      (0 ≤ ev.start_ms ∧ ev.start_ms ≤ ev.end_ms) ∧
      ∃ i ∈ doc, ∃ s e : ℚ, i.start = some (some s) ∧
        i.«end» = some (some e) ∧ ev = mkDraft i s e := by
  intro ev hev
  rcases parse_wf_eq doc with hq | hq
  · rw [hq] at hev
    simp at hev
  · rw [hq] at hev
    rw [keptDrafts, List.mem_filterMap] at hev
    obtain ⟨i, hi, hconv⟩ := hev
    rcases h1 : i.start with _ | s <;> rw [h1] at hconv
    · cases hconv
    rcases h2 : i.«end» with _ | e <;> rw [h2] at hconv
    · rcases s with _ | sq <;> cases hconv
    rcases s with _ | sq <;> rcases e with _ | eq
    · cases hconv
    · cases hconv
    · cases hconv
    injection hconv with hconv
    have hok := List.all_eq_true.mp h i hi
    rw [instOk, h1, h2] at hok
    simp only [Bool.and_eq_true, decide_eq_true_eq] at hok
    subst hconv
    refine ⟨⟨?_, ?_⟩, i, hi, sq, eq, h1, h2, rfl⟩
    · exact msOfSeconds_nonneg hok.1
    · exact msOfSeconds_mono hok.1 hok.2

/-- C7 counterexample: the parser accepts (with no reported error) a log
containing a negative start time and an instance whose end precedes its
start; the claimed bounds fail on the output events. -/
theorem C7_counterexample :
    (parse_xml (.wellFormed [iNeg, iBad])).2 = false
    ∧ ¬ (∀ ev ∈ (parse_xml (.wellFormed [iNeg, iBad])).1,
          0 ≤ ev.start_ms ∧ ev.start_ms ≤ ev.end_ms) := by
  decide

/-- C7 witness: the scenario-1 log meets the amended hypothesis and its
events satisfy the bounds. -/
theorem C7_witness :
    ([iGoal, iFoul].all instOk = true)
    ∧ (∀ ev ∈ (parse_xml (.wellFormed [iGoal, iFoul])).1,
        (0 ≤ ev.start_ms ∧ ev.start_ms ≤ ev.end_ms) ∧
        ∃ i ∈ [iGoal, iFoul], ∃ s e : ℚ, i.start = some (some s) ∧
          i.«end» = some (some e) ∧ ev = mkDraft i s e) :=
  ⟨by decide, C7_time_bounds [iGoal, iFoul] (by decide)⟩

/-! ### Claim C9 -/

/-- C9: per-instance handling in a well-formed log document: an instance
lacking a start or an end element is dropped while the rest of the
document parses as if it were absent; a successful parse returns exactly
the kept instances converted in document order; a missing code element
defaults the tag to `Unknown`; a missing label defaults the player to the
empty string; and the empty document parses to the empty sequence. -/
theorem C9_instance_handling :
    (∀ (pre post : List Inst) (i : Inst), i.start = none ∨ i.«end» = none →
      parse_xml (.wellFormed (pre ++ i :: post)) =
        parse_xml (.wellFormed (pre ++ post)))
    ∧ (∀ (doc : List Inst) (evs : List EventDraft),
        parse_xml (.wellFormed doc) = (evs, false) → evs = keptDrafts doc)
    ∧ (∀ (i : Inst) (s e : ℚ), i.code = none →
        (mkDraft i s e).tag = some "Unknown")
    ∧ (∀ (i : Inst) (s e : ℚ), i.label = none →
        (mkDraft i s e).player = some "")
    ∧ parse_xml (.wellFormed []) = ([], false) := by
  refine ⟨?_, ?_, ?_, ?_, rfl⟩
  · intro pre post i hi
    rw [parse_xml, parse_xml, convInstances_drop hi pre post]
  · intro doc evs hp
    rcases parse_wf_eq doc with hq | hq
    · rw [hp] at hq
      simp at hq
    · rw [hp] at hq
      simpa using hq
  · intro i s e hc
    simp [mkDraft, hc]
  · intro i s e hl
    simp [mkDraft, hl]

/-- C9 witness: a concrete instance lacking its start element is dropped
with the rest of the document intact; a concrete successful parse equals
its kept conversion; and the concrete defaults. -/
theorem C9_witness :
    (parse_xml (.wellFormed (iNoStart :: [iGoal])) =
      parse_xml (.wellFormed [iGoal]))
    ∧ ([mkDraft iGoal 10 15] = keptDrafts [iGoal])
    ∧ (mkDraft iNoCode 10 15).tag = some "Unknown"
    ∧ (mkDraft iNoCode 10 15).player = some "" :=
  ⟨C9_instance_handling.1 [] [iGoal] iNoStart (Or.inl rfl),
   C9_instance_handling.2.1 [iGoal] [mkDraft iGoal 10 15] (by decide),
   C9_instance_handling.2.2.1 iNoCode 10 15 rfl,
   C9_instance_handling.2.2.2.1 iNoCode 10 15 rfl⟩

/-! ### Claim C10 -/

/-- C10: public registration takes the new account's role directly from
caller input with no authorization precondition: on the fresh store an
unauthenticated caller registers with role `admin`; the account is
created with that role, login returns it, and it passes the application's
admin check. -/
theorem C10_role_escalation :
    (register DB.dbInit "eve@example.com" "pw" "admin").2 = true
    ∧ (register DB.dbInit "eve@example.com" "pw" "admin").1.users =
        [⟨1, "eve@example.com", hash_password "pw", "admin", none⟩]
    ∧ (login (register DB.dbInit "eve@example.com" "pw" "admin").1
        "eve@example.com" "pw").map (fun u => is_admin u.role) = some true := by
  decide

/-! ### Claim C6 -/

/-- C6 counterexample: a pass that transitions exactly one match to ready
returns Python `None` — not the number of matches it transitioned. -/
theorem C6_counterexample :
    transitionsCount dbA (update_processing_matches dbA oGood).db = 1
    ∧ (update_processing_matches dbA oGood).ret = none
    ∧ (update_processing_matches dbA oGood).ret ≠
        some (transitionsCount dbA (update_processing_matches dbA oGood).db) := by
  decide

/-- C6 (amended): `update_processing_matches` returns no value (Python
`None`) on every path; the number of matches it transitioned to ready in
the pass is reported only through the per-match success messages, whose
count equals the number of transitions. -/
theorem C6_return_contract (db : DB) (o : MuxOracle) :
    (update_processing_matches db o).ret = none
    ∧ (update_processing_matches db o).messages.length =
        transitionsCount db (update_processing_matches db o).db :=
  ⟨update_ret db o, update_messages_len db o⟩

/-! ### Claim C4 -/

/-- C4 counterexample: the operations behind the admin controls take no
caller identity and perform no role check, so a non-admin caller invoking
one directly (here reconciliation, with role `user`) is not rejected: the
store is mutated and a commit is issued. -/
theorem C4_counterexample :
    ¬ (∀ role : String, role ≠ "admin" →
        ∀ (a : AdminAction) (db : DB) (oi : IngestOracle) (om : MuxOracle),
          (perform_admin a db oi om).db = db ∧
          (perform_admin a db oi om).committed = false) := by
  intro h
  exact absurd (h "user" (by decide) AdminAction.sync dbA oUp oGood).2 (by decide)

/-- C4 (amended): authorization is enforced only in the presentation
layer: for a non-admin role the sidebar renders no admin controls, so
through the UI no operation body runs, the store is unchanged and no
commit is issued; the operation bodies themselves contain no role
check. -/
theorem C4_sidebar_gate (role : String) (h : role ≠ "admin")
    (a : AdminAction) (db : DB) (oi : IngestOracle) (om : MuxOracle) :
    admin_sidebar role a db oi om = ⟨db, false⟩ := by
  rw [admin_sidebar, is_admin]
  rw [if_neg (by simp [h])]

/-- C4 witness: a `user`-role caller driving the sidebar performs nothing
on a concrete store. -/
theorem C4_witness :
    ("user" ≠ "admin")
    ∧ admin_sidebar "user" AdminAction.sync dbA oUp oGood = ⟨dbA, false⟩ :=
  ⟨by decide, C4_sidebar_gate "user" (by decide) AdminAction.sync dbA oUp oGood⟩

/-! ### Claim C5 -/

/-- C5: a reconciliation pass maps the match table through the per-row
step, which is the identity on every row whose status is not in
uploading/processing (the pending selection); on an all-ready table the
pass is a no-op that issues no commit and reports zero transitions (only
the synced toast); and — against a provider meeting the section-6
contract that a ready asset carries at least one playback id — re-running
the pass on the resulting store changes nothing (idempotence). -/
theorem C5_reconcile_idempotent (db : DB) (o : MuxOracle)
    (hr : o.ReadyHasPlayback) :
    ((update_processing_matches db o).db.«matches» =
        db.«matches».map (reconStep o)
      ∧ ∀ m : Match, pendingB m = false → reconStep o m = m)
    ∧ ((∀ m ∈ db.«matches», m.status = "ready") →
        update_processing_matches db o = ⟨db, [], true, false, none⟩)
    ∧ (update_processing_matches
        (update_processing_matches db o).db o).db =
      (update_processing_matches db o).db := by
  refine ⟨⟨by rw [update_db_eq], ?_⟩, ?_, ?_⟩
  · intro m hm
    rw [reconStep, if_neg (by simp [hm])]
  · intro hall
    have hnil : db.«matches».filter pendingB = [] := by
      rw [List.filter_eq_nil_iff]
      intro m hm
      simp [pendingB, hall m hm]
    simp [update_processing_matches, hnil]
  · have hgg : ∀ m : Match, reconStep o (reconStep o m) = reconStep o m := by
      intro m
      by_cases hp : pendingB m = true
      · have hin : reconStep o m = reconcileMatch o m := by
          rw [reconStep, if_pos hp]
        rcases reconcileMatch_cases o m with hc | ⟨aid, a, hga, hst, hpb, hc⟩ |
          ⟨aid, a, pid, rest, hga, hst, hpb, hc⟩
        · rw [hin, hc, hin, hc]
        · exact absurd hpb (hr aid a hga hst)
        · rw [hin, hc, reconStep, if_neg (by simp [pendingB])]
      · have hin : reconStep o m = m := by
          rw [reconStep, if_neg hp]
        rw [hin, hin]
    rw [update_db_eq, update_db_eq]
    have hmm : (({ db with «matches» := db.«matches».map (reconStep o) } : DB)).«matches».map (reconStep o) =
        db.«matches».map (reconStep o) := by
      show (db.«matches».map (reconStep o)).map (reconStep o) =
        db.«matches».map (reconStep o)
      rw [List.map_map]
      exact List.map_congr_left (fun m _ => hgg m)
    rw [hmm]

/-- C5 witness: the contract holds of the concrete ready store `dbB` and
the fixture provider. -/
theorem C5_witness :
    oGood.ReadyHasPlayback
    ∧ (((update_processing_matches dbB oGood).db.«matches» =
          dbB.«matches».map (reconStep oGood)
        ∧ ∀ m : Match, pendingB m = false → reconStep oGood m = m)
      ∧ ((∀ m ∈ dbB.«matches», m.status = "ready") →
          update_processing_matches dbB oGood = ⟨dbB, [], true, false, none⟩)
      ∧ (update_processing_matches
          (update_processing_matches dbB oGood).db oGood).db =
        (update_processing_matches dbB oGood).db) :=
  ⟨oGood_rhp, C5_reconcile_idempotent dbB oGood oGood_rhp⟩

/-! ### Claim C1 -/

theorem update_matches_eq (db : DB) (o : MuxOracle) :
    (update_processing_matches db o).db.«matches» =
      db.«matches».map (reconStep o) := by
  rw [update_db_eq]

/-- C1 counterexample: a reconciliation step against a provider that
reports the asset `ready` with an empty playback-id list changes the
match row — writing the resolved `mux_asset_id` alone (the playback read
raises after that assignment and the per-match handler swallows it) —
without setting the three ready fields together as one write. -/
theorem C1_counterexample :
    Step dbA (update_processing_matches dbA oEmptyPb).db
    ∧ dbA.«matches» = [mA]
    ∧ (update_processing_matches dbA oEmptyPb).db.«matches» = [mAPartial]
    ∧ mAPartial ≠ mA
    ∧ mAPartial.status ≠ "ready"
    ∧ mAPartial.mux_playback_id = none :=
  ⟨Step.doReconcile dbA oEmptyPb oEmptyPb_wf, by decide, by decide,
   by decide, by decide, rfl⟩

/-- C1 (amended): in every reachable store `mux_playback_id` is non-empty
iff `status = "ready"` (before and after any step); a step never removes
match rows or moves a row's status backward along
uploading/processing → ready; and a step that changes a row either
performs the ready transition — setting `mux_asset_id`, a non-empty
`mux_playback_id` and `status = "ready"` together — or updates
`mux_asset_id` alone (the swallowed-IndexError path, possible only when
the provider reports a ready asset with no playback ids), leaving the
status (still non-ready) and the playback id untouched. -/
theorem C1_invariant_and_transitions (db db2 : DB) (hreach : Reachable db)
    (hs : Step db db2) :
    (∀ m ∈ db.«matches», (playbackNonEmpty m = true ↔ m.status = "ready"))
    ∧ (∀ m ∈ db2.«matches», (playbackNonEmpty m = true ↔ m.status = "ready"))
    ∧ db.«matches».length ≤ db2.«matches».length
    ∧ (∀ (i : Nat) (hi : i < db.«matches».length)
        (hi2 : i < db2.«matches».length),
        statusRank db.«matches»[i] ≤ statusRank db2.«matches»[i]
        ∧ (db2.«matches»[i] ≠ db.«matches»[i] →
            (db2.«matches»[i].status = "ready"
              ∧ (∃ aid, db2.«matches»[i].mux_asset_id = some aid)
              ∧ (∃ pid, pid ≠ "" ∧
                  db2.«matches»[i].mux_playback_id = some pid))
            ∨ (db2.«matches»[i].status = db.«matches»[i].status
              ∧ db2.«matches»[i].mux_playback_id =
                  db.«matches»[i].mux_playback_id
              ∧ db.«matches»[i].status ≠ "ready"))) := by
  have hinv := reachable_stateInv hreach
  have hinv2 := stateInv_step hinv hs
  have hmain : db.«matches».length ≤ db2.«matches».length
      ∧ (∀ (i : Nat) (hi : i < db.«matches».length)
          (hi2 : i < db2.«matches».length),
          statusRank db.«matches»[i] ≤ statusRank db2.«matches»[i]
          ∧ (db2.«matches»[i] ≠ db.«matches»[i] →
              (db2.«matches»[i].status = "ready"
                ∧ (∃ aid, db2.«matches»[i].mux_asset_id = some aid)
                ∧ (∃ pid, pid ≠ "" ∧
                    db2.«matches»[i].mux_playback_id = some pid))
              ∨ (db2.«matches»[i].status = db.«matches»[i].status
                ∧ db2.«matches»[i].mux_playback_id =
                    db.«matches»[i].mux_playback_id
                ∧ db.«matches»[i].status ≠ "ready"))) := by
    cases hs with
    | doRegister ne np nr =>
      constructor
      · simp [register_matches]
      · intro i hi hi2
        simp only [register_matches]
        exact ⟨le_refl _, fun hne => absurd rfl hne⟩
    | doAssign uid tname =>
      constructor
      · simp [assign_matches]
      · intro i hi hi2
        simp only [assign_matches]
        exact ⟨le_refl _, fun hne => absurd rfl hne⟩
    | doIngest o ti opp hv hx x =>
      rcases ingest_matches db o ti opp hv hx x with heq | ⟨m0, h1, h2, h3, heq⟩
      · constructor
        · simp [heq]
        · intro i hi hi2
          simp only [heq]
          exact ⟨le_refl _, fun hne => absurd rfl hne⟩
      · constructor
        · simp [heq]
        · intro i hi hi2
          simp only [heq]
          rw [List.getElem_append_left hi]
          exact ⟨le_refl _, fun hne => absurd rfl hne⟩
    | doReconcile o hwf =>
      constructor
      · simp [update_matches_eq]
      · intro i hi hi2
        simp only [update_matches_eq, List.getElem_map]
        by_cases hp : pendingB db.«matches»[i] = true
        · have hin : reconStep o db.«matches»[i] =
              reconcileMatch o db.«matches»[i] := by
            rw [reconStep, if_pos hp]
          rcases reconcileMatch_cases o db.«matches»[i] with hc |
            ⟨aid, a, hga, hst, hpb, hc⟩ | ⟨aid, a, pid, rest, hga, hst, hpb, hc⟩
          · rw [hin, hc]
            exact ⟨le_refl _, fun hne => absurd rfl hne⟩
          · rw [hin, hc]
            exact ⟨le_refl _, fun _ => Or.inr ⟨rfl, rfl, pendingB_status hp⟩⟩
          · rw [hin, hc]
            constructor
            · simp only [statusRank]
              split <;> simp
            · intro _
              exact Or.inl ⟨rfl, ⟨aid, rfl⟩,
                ⟨pid, hwf aid a hga pid
                  (by rw [hpb]; exact List.mem_cons_self pid rest), rfl⟩⟩
        · have hin : reconStep o db.«matches»[i] = db.«matches»[i] := by
            rw [reconStep, if_neg hp]
          rw [hin]
          exact ⟨le_refl _, fun hne => absurd rfl hne⟩
  exact ⟨fun m hm => (hinv m hm).1, fun m hm => (hinv2 m hm).1,
    hmain.1, hmain.2⟩

/-- C1 witness: after ingestion and a successful reconciliation the
linked store satisfies the playback/status invariant. -/
theorem C1_witness :
    Reachable dbA
    ∧ (∀ m ∈ (update_processing_matches dbA oGood).db.«matches»,
        (playbackNonEmpty m = true ↔ m.status = "ready")) :=
  ⟨reach_dbA,
   (C1_invariant_and_transitions dbA (update_processing_matches dbA oGood).db
     reach_dbA (Step.doReconcile dbA oGood oGood_wf)).2.1⟩

/-! ### Claim C2 -/

/-- C2: for a `user`-role caller over any reachable store and any tag
filter, the playable timeline entries are exactly the event/match join
rows whose match belongs to the caller's affiliated team and is ready
(with the derived seek URL); an unaffiliated `user` receives the empty
query result; and for every caller, no event of a non-ready match is
rendered with a playback URL — such a match appears only as a placeholder
entry. -/
theorem C2_user_visibility (db : DB) (hreach : Reachable db) (u : User)
    (hu : u.role = "user") (tag : String) :
    (∀ (e : Event) (m : Match) (url : String),
        TimelineEntry.playable e m url ∈ render_timeline db u tag ↔
          (e ∈ db.events ∧ m ∈ db.«matches» ∧ m.id = e.match_id ∧
           e.tag = some tag ∧ m.team_id = u.team_id ∧
           m.status = "ready" ∧ url = seek_url m e))
    ∧ (u.team_id = none → timeline_query db u tag = [])
    ∧ (∀ (v : User) (e : Event) (m : Match) (url : String),
        TimelineEntry.playable e m url ∈ render_timeline db v tag →
          m.status = "ready") := by
  refine ⟨?_, ?_, ?_⟩
  · intro e m url
    rw [mem_render_playable, mem_timeline_query]
    constructor
    · rintro ⟨⟨he, hm, hid, htag, hrole⟩, hst, hurl⟩
      rcases hrole with hadmin | hteam
      · rw [hu] at hadmin
        exact absurd hadmin (by decide)
      · exact ⟨he, hm, hid, htag, hteam, hst, hurl⟩
    · rintro ⟨he, hm, hid, htag, hteam, hst, hurl⟩
      exact ⟨⟨he, hm, hid, htag, Or.inr hteam⟩, hst, hurl⟩
  · intro hnone
    rw [List.eq_nil_iff_forall_not_mem]
    intro p hp
    obtain ⟨he, hm, hid, htag, hrole⟩ :=
      (mem_timeline_query db u tag p.1 p.2).mp hp
    rcases hrole with hadmin | hteam
    · rw [hu] at hadmin
      exact absurd hadmin (by decide)
    · rw [hnone] at hteam
      exact (reachable_stateInv hreach p.2 hm).2 hteam
  · intro v e m url h
    exact ((mem_render_playable db v tag e m url).mp h).2.1

/-- C2 witness: the unaffiliated `user`-role viewer receives the empty
query result over the concrete linked store. -/
theorem C2_witness :
    Reachable dbB ∧ uUser0.role = "user"
    ∧ (uUser0.team_id = none → timeline_query dbB uUser0 "Goal" = []) :=
  ⟨reach_dbB, rfl, (C2_user_visibility dbB reach_dbB uUser0 rfl "Goal").2.1⟩

/-! ### Claim C8 -/

/-- C8 counterexample: reachable by ingesting a log whose instance starts
at -5.0s and reconciling the match to ready — the rendered playable URL's
seek fragment is `t=-5`, so `<seconds>` is not a non-negative integer. -/
theorem C8_counterexample :
    Reachable dbNeg
    ∧ render_timeline dbNeg uAdmin "Goal" =
        [TimelineEntry.playable evNeg mNeg
          "https://stream.mux.com/pb1/low.mp4#t=-5"]
    ∧ mNeg.status = "ready"
    ∧ evNeg.start_ms.fdiv 1000 < 0 :=
  ⟨reach_dbNeg, by decide, rfl, by decide⟩

/-- C8 (amended): every playable timeline entry's URL is exactly
`https://stream.mux.com/<playback_id>/low.mp4#t=<seconds>` with
`<seconds> = start_ms // 1000` (Python floor division); whenever
`start_ms ≥ 0`, `<seconds>` is the non-negative whole number
`start_ms / 1000` rounded down, rendered in canonical decimal
(`Nat.repr`: no sign, no fractional part, no leading zeros). -/
theorem C8_url_format (db : DB) (u : User) (tag : String) (e : Event)
    (m : Match) (url : String)
    (h : TimelineEntry.playable e m url ∈ render_timeline db u tag) :
    url = "https://stream.mux.com/" ++ optStr m.mux_playback_id ++
        "/low.mp4#t=" ++ toString (e.start_ms.fdiv 1000)
    ∧ (0 ≤ e.start_ms →
        ∃ n : Nat, e.start_ms.fdiv 1000 = (n : Int) ∧
          toString (e.start_ms.fdiv 1000) = Nat.repr n ∧
          (n : Int) * 1000 ≤ e.start_ms ∧
          e.start_ms < (n : Int) * 1000 + 1000) := by
  obtain ⟨-, -, hurl⟩ := (mem_render_playable db u tag e m url).mp h
  constructor
  · rw [hurl, seek_url]
  · intro hpos
    have hfd : e.start_ms.fdiv 1000 = e.start_ms / 1000 :=
      Int.fdiv_eq_ediv e.start_ms (by norm_num)
    have h1 : e.start_ms.fdiv 1000 = (((e.start_ms / 1000).toNat : Nat) : Int) := by
      rw [hfd]
      omega
    refine ⟨(e.start_ms / 1000).toNat, h1, ?_, by omega, by omega⟩
    rw [h1]
    rfl

/-- C8 witness: the reachable store built from a 61.999s start renders
the seek fragment `t=61` and satisfies the URL contract. -/
theorem C8_witness :
    (TimelineEntry.playable evSk mSk urlSk ∈ render_timeline dbSk uAdmin "Goal")
    ∧ (urlSk = "https://stream.mux.com/" ++ optStr mSk.mux_playback_id ++
        "/low.mp4#t=" ++ toString (evSk.start_ms.fdiv 1000)
      ∧ (0 ≤ evSk.start_ms →
          ∃ n : Nat, evSk.start_ms.fdiv 1000 = (n : Int) ∧
            toString (evSk.start_ms.fdiv 1000) = Nat.repr n ∧
            (n : Int) * 1000 ≤ evSk.start_ms ∧
            evSk.start_ms < (n : Int) * 1000 + 1000)) :=
  ⟨by decide, C8_url_format dbSk uAdmin "Goal" evSk mSk urlSk (by decide)⟩

end FC360
